import Mathlib

/-!
# Verification of the kafka-bridge matching core

Shallow embedding of the kafka-bridge repository's matching engine
(`internal/engine/engine.go` and its headers-aware revision), the match
store (`internal/store/store.go`), configuration validation
(`internal/config/config.go`) and the route-key derivation from
`cmd/filter/main.go`, together with proofs of the specification's
testable properties.

Conventions of the embedding:
* Parsed JSON values (Go `any` after `encoding/json.Unmarshal`) are the
  inductive `JValue`.  Go decodes every JSON number as `float64`; the
  embedding restricts numbers to integer values (exactly representable
  in `float64` for magnitudes below `2^53`), which is the only form the
  verified properties touch.
* Go maps are association lists.  Lookup takes the first matching key;
  assignment replaces the first matching key or appends.  States
  reachable in Go never carry duplicate keys.
* Functions that recurse through the nested `JValue` tree take explicit
  fuel, instantiated with the value's nesting depth `jdepth`, which
  covers the recursion exactly, so the fuel-exhausted branch is
  unreachable; Go's recursion has no such bound but always terminates
  on finite values.
* Fallible Go functions returning `error` become `Except String` /
  `Option` with the exact message strings of the source.
-/

/-- Parsed JSON value: the tagged union Go's `encoding/json` produces for
`any` (object, array, string, number, boolean, null).  Numbers are
integer-valued, see the file header. -/
inductive JValue where
  | obj : List (String × JValue) → JValue
  | arr : List JValue → JValue
  | str : String → JValue
  | num : Int → JValue
  | jbool : Bool → JValue
  | null : JValue

/-- Go map lookup on an association list: first entry with the key. -/
def lookupAssoc {α : Type} : List (String × α) → String → Option α
  | [], _ => none
  | (k, v) :: rest, key => if k = key then some v else lookupAssoc rest key

/-- Go map assignment on an association list: replace the first entry
with the key, or append a new entry. -/
def assignAssoc {α : Type} : List (String × α) → String → α → List (String × α)
  | [], key, v => [(key, v)]
  | (k, w) :: rest, key, v =>
    if k = key then (key, v) :: rest else (k, w) :: assignAssoc rest key v

-- ## internal/store/store.go

/-- `MatchStore` keeps allowed payload fingerprints per route
(`map[string]map[string]struct{}` in the source).  The inner sets are
value lists without duplicates, maintained by `Add`. -/
structure MatchStore where
  values : List (String × List String)
deriving DecidableEq

/-- `NewMatchStore` creates an empty store. -/
def NewMatchStore : MatchStore := ⟨[]⟩

/-- Reading `s.values[route]` in Go: the route's set, empty when the
route is unknown (a nil map reads as empty). -/
def lookupRoute (vals : List (String × List String)) (route : String) : List String :=
  (lookupAssoc vals route).getD []

/-- `Add` inserts the fingerprint for the given route, creating the
per-route set on first use; returns the updated store and whether the
fingerprint was newly inserted. -/
def MatchStore.Add (s : MatchStore) (route fingerprint : String) : MatchStore × Bool :=
  let routeMap := lookupRoute s.values route
  if fingerprint ∈ routeMap then (s, false)
  else (⟨assignAssoc s.values route (routeMap ++ [fingerprint])⟩, true)

/-- `Contains` reports whether a fingerprint exists for the route. -/
def MatchStore.Contains (s : MatchStore) (route fingerprint : String) : Bool :=
  fingerprint ∈ lookupRoute s.values route

/-- `Size` returns the number of fingerprints stored for the route. -/
def MatchStore.Size (s : MatchStore) (route : String) : Nat :=
  (lookupRoute s.values route).length

/-- `Clear` removes all cached fingerprints across routes and returns
the count removed. -/
def MatchStore.Clear (s : MatchStore) : MatchStore × Nat :=
  (⟨[]⟩, (s.values.map (fun p => p.2.length)).sum)

/-- `Snapshot` returns a copy of all values keyed by route. -/
def MatchStore.Snapshot (s : MatchStore) : List (String × List String) :=
  s.values

/-- Building a Go set (`map[string]struct{}`) from a value list:
re-inserting an existing member is a no-op. -/
def insertValue (l : List String) (v : String) : List String :=
  if v ∈ l then l else l ++ [v]

/-- `Load` replaces the store contents with the provided snapshot; each
route's list is rebuilt as a set (duplicate values collapse, duplicate
route keys overwrite as Go map assignment would). -/
def MatchStore.Load (snapshot : List (String × List String)) : MatchStore :=
  ⟨snapshot.foldl (fun acc p => assignAssoc acc p.1 (p.2.foldl insertValue [])) []⟩

/-- Type invariant of the Go `map`: route keys are distinct.  Every
store reachable through `NewMatchStore`/`Add`/`Clear`/`Load` satisfies
it. -/
abbrev MatchStore.WF (s : MatchStore) : Prop :=
  (s.values.map Prod.fst).Nodup

-- ## Association-list lemmas

theorem lookupAssoc_assign_self {α : Type} (l : List (String × α)) (k : String) (v : α) :
    lookupAssoc (assignAssoc l k v) k = some v := by
  induction l with
  | nil => simp [assignAssoc, lookupAssoc]
  | cons p rest ih =>
    obtain ⟨k1, w⟩ := p
    by_cases h : k1 = k
    · simp [assignAssoc, lookupAssoc, h]
    · simp [assignAssoc, lookupAssoc, h, ih]

theorem lookupAssoc_assign_other {α : Type} (l : List (String × α)) (k x : String) (v : α)
    (hxk : x ≠ k) : lookupAssoc (assignAssoc l k v) x = lookupAssoc l x := by
  have hkx : ¬(k = x) := fun h => hxk h.symm
  induction l with
  | nil => simp [assignAssoc, lookupAssoc, hkx]
  | cons p rest ih =>
    obtain ⟨k1, w⟩ := p
    by_cases h : k1 = k
    · simp [assignAssoc, lookupAssoc, h, hkx]
    · by_cases h2 : k1 = x
      · simp [assignAssoc, lookupAssoc, h, h2, hxk]
      · simp [assignAssoc, lookupAssoc, h, h2, ih]

theorem lookupAssoc_eq_none_of_not_mem {α : Type} (l : List (String × α)) (x : String)
    (hx : x ∉ l.map Prod.fst) : lookupAssoc l x = none := by
  induction l with
  | nil => rfl
  | cons p rest ih =>
    simp only [List.map_cons, List.mem_cons] at hx
    push_neg at hx
    simp only [lookupAssoc]
    rw [if_neg (fun h => hx.1 h.symm)]
    exact ih hx.2

theorem lookupAssoc_of_mem_nodup {α : Type} (l : List (String × α)) (x : String) (vs : α)
    (hmem : (x, vs) ∈ l) (hnd : (l.map Prod.fst).Nodup) : lookupAssoc l x = some vs := by
  induction l with
  | nil => cases hmem
  | cons p rest ih =>
    simp only [List.map_cons, List.nodup_cons] at hnd
    rcases List.mem_cons.mp hmem with h | h
    · rw [← h]
      simp [lookupAssoc]
    · have hx : x ∈ rest.map Prod.fst := List.mem_map.mpr ⟨(x, vs), h, rfl⟩
      have hne : ¬(p.1 = x) := fun he => hnd.1 (he ▸ hx)
      simp only [lookupAssoc]
      rw [if_neg hne]
      exact ih h hnd.2

theorem lookupRoute_assign_self (vals : List (String × List String)) (r : String)
    (m : List String) : lookupRoute (assignAssoc vals r m) r = m := by
  simp [lookupRoute, lookupAssoc_assign_self]

theorem lookupRoute_assign_other (vals : List (String × List String)) (r x : String)
    (m : List String) (h : x ≠ r) :
    lookupRoute (assignAssoc vals r m) x = lookupRoute vals x := by
  simp [lookupRoute, lookupAssoc_assign_other _ _ _ _ h]

theorem mem_insertValue (l : List String) (w v : String) :
    v ∈ insertValue l w ↔ v ∈ l ∨ v = w := by
  by_cases h : w ∈ l
  · simp only [insertValue, if_pos h]
    constructor
    · exact fun hv => Or.inl hv
    · rintro (hv | rfl)
      · exact hv
      · exact h
  · simp [insertValue, if_neg h]

theorem mem_foldl_insertValue (vs : List String) :
    ∀ (acc : List String) (v : String), v ∈ vs.foldl insertValue acc ↔ v ∈ acc ∨ v ∈ vs := by
  induction vs with
  | nil => simp
  | cons w rest ih =>
    intro acc v
    rw [List.foldl_cons, ih, mem_insertValue]
    simp only [List.mem_cons]
    tauto

theorem load_foldl_lookup_not_mem (S : List (String × List String)) :
    ∀ (acc : List (String × List String)) (x : String), x ∉ S.map Prod.fst →
    lookupAssoc (S.foldl (fun a p => assignAssoc a p.1 (p.2.foldl insertValue [])) acc) x =
      lookupAssoc acc x := by
  induction S with
  | nil => intro acc x _; rfl
  | cons p rest ih =>
    intro acc x h
    simp only [List.map_cons, List.mem_cons] at h
    push_neg at h
    rw [List.foldl_cons, ih _ _ h.2, lookupAssoc_assign_other _ _ _ _ h.1]

theorem load_foldl_lookup_mem (S : List (String × List String)) :
    ∀ (acc : List (String × List String)) (x : String) (vs : List String),
    (S.map Prod.fst).Nodup → (x, vs) ∈ S →
    lookupAssoc (S.foldl (fun a p => assignAssoc a p.1 (p.2.foldl insertValue [])) acc) x =
      some (vs.foldl insertValue []) := by
  induction S with
  | nil => intro _ _ _ _ h; cases h
  | cons p rest ih =>
    intro acc x vs hnd hmem
    simp only [List.map_cons, List.nodup_cons] at hnd
    rcases List.mem_cons.mp hmem with h | h
    · subst h
      rw [List.foldl_cons, load_foldl_lookup_not_mem rest _ _ hnd.1,
        lookupAssoc_assign_self]
    · rw [List.foldl_cons]
      exact ih _ _ _ hnd.2 h

-- ## Claims C2, C5, C6 (Match Store)

/-- C2: cross-route isolation is absolute: for distinct route identifiers
A and B, `Add(A, x)` leaves `Contains(B, x)` exactly as it was, so a
value cached for route A never satisfies a match for route B unless
separately added for B. -/
theorem c2_cross_route_isolation (s : MatchStore) (A B x : String) (hAB : A ≠ B) :
    (s.Add A x).1.Contains B x = s.Contains B x := by
  by_cases h : x ∈ lookupRoute s.values A
  · simp [MatchStore.Add, h]
  · simp only [MatchStore.Add, if_neg h]
    simp [MatchStore.Contains, lookupRoute_assign_other _ _ _ _ (fun hBA => hAB hBA.symm)]

theorem c2_cross_route_isolation_witness :
    (NewMatchStore.Add "routeA" "x").1.Contains "routeB" "x" =
      NewMatchStore.Contains "routeB" "x" :=
  c2_cross_route_isolation NewMatchStore "routeA" "routeB" "x" (by decide)

/-- C5: for a value not currently stored for a route, the first `Add`
returns true, a second identical `Add` returns false, and `Size` is
unchanged by the second call. -/
theorem c5_add_idempotent (s : MatchStore) (r v : String)
    (h : s.Contains r v = false) :
    (s.Add r v).2 = true ∧ ((s.Add r v).1.Add r v).2 = false ∧
      ((s.Add r v).1.Add r v).1.Size r = (s.Add r v).1.Size r := by
  have hv : v ∉ lookupRoute s.values r := by
    simpa [MatchStore.Contains] using h
  have h1 : s.Add r v =
      (⟨assignAssoc s.values r (lookupRoute s.values r ++ [v])⟩, true) := by
    simp [MatchStore.Add, hv]
  have h2 : v ∈ lookupRoute (assignAssoc s.values r (lookupRoute s.values r ++ [v])) r := by
    rw [lookupRoute_assign_self]
    simp
  refine ⟨by rw [h1], ?_, ?_⟩
  · rw [h1]
    simp [MatchStore.Add, h2]
  · rw [h1]
    simp [MatchStore.Add, h2]

theorem c5_add_idempotent_witness :
    NewMatchStore.Contains "route" "v" = false ∧
      (NewMatchStore.Add "route" "v").2 = true ∧
      ((NewMatchStore.Add "route" "v").1.Add "route" "v").2 = false ∧
      ((NewMatchStore.Add "route" "v").1.Add "route" "v").1.Size "route" =
        (NewMatchStore.Add "route" "v").1.Size "route" :=
  ⟨by decide, c5_add_idempotent NewMatchStore "route" "v" (by decide)⟩

/-- C6: `Load(Snapshot())` reproduces the same `Contains` answer for
every (route, value) pair, for every store satisfying the Go map's
key-uniqueness invariant. -/
theorem c6_snapshot_load_round_trip (s : MatchStore) (hwf : s.WF)
    (route value : String) :
    (MatchStore.Load s.Snapshot).Contains route value = s.Contains route value := by
  by_cases h : route ∈ s.values.map Prod.fst
  · obtain ⟨⟨r0, vs⟩, hp, rfl⟩ := List.mem_map.mp h
    have hlook : lookupAssoc s.values r0 = some vs :=
      lookupAssoc_of_mem_nodup _ _ _ hp hwf
    have hload : lookupAssoc
        (s.values.foldl (fun a p => assignAssoc a p.1 (p.2.foldl insertValue [])) []) r0 =
        some (vs.foldl insertValue []) :=
      load_foldl_lookup_mem _ _ _ _ hwf hp
    simp only [MatchStore.Contains, MatchStore.Load, MatchStore.Snapshot, lookupRoute,
      hload, hlook, Option.getD_some]
    rw [decide_eq_decide, mem_foldl_insertValue]
    simp
  · have hlook : lookupAssoc s.values route = none :=
      lookupAssoc_eq_none_of_not_mem _ _ h
    have hload : lookupAssoc
        (s.values.foldl (fun a p => assignAssoc a p.1 (p.2.foldl insertValue [])) []) route =
        none := by
      rw [load_foldl_lookup_not_mem _ _ _ h]
      rfl
    simp [MatchStore.Contains, MatchStore.Load, MatchStore.Snapshot, lookupRoute, hload, hlook]

theorem c6_snapshot_load_round_trip_witness :
    (((NewMatchStore.Add "r1" "a").1.Add "r2" "b").1.WF) ∧
      (MatchStore.Load (((NewMatchStore.Add "r1" "a").1.Add "r2" "b").1.Snapshot)).Contains
          "r1" "a" =
        (((NewMatchStore.Add "r1" "a").1.Add "r2" "b").1.Contains "r1" "a") :=
  ⟨by decide, c6_snapshot_load_round_trip _ (by decide) "r1" "a"⟩

-- ## internal/engine/engine.go: string helpers

/-- `isDigit` (engine.go): `unicode.IsDigit` applied to one byte of the
value cast to a rune.  Among single-byte code points only the ASCII
digits are in the Unicode `Nd` category, so this is an ASCII-digit
test. -/
def isDigit (c : Char) : Bool := '0' ≤ c && c ≤ '9'

/-- Worker for `strings.Split(field, ".")`. -/
def splitOnDotAux : List Char → List Char → List String
  | [], acc => [String.mk acc.reverse]
  | c :: cs, acc =>
    if c = '.' then String.mk acc.reverse :: splitOnDotAux cs [] else splitOnDotAux cs (c :: acc)

/-- `strings.Split(field, ".")`: split on the single-byte separator;
never returns an empty list. -/
def splitOnDot (field : String) : List String := splitOnDotAux field.data []

/-- `strings.ToLower`, restricted to ASCII case mapping (the header keys
and route names this development evaluates it on are ASCII, where Go's
full-Unicode lowering agrees). -/
def charToLower (c : Char) : Char :=
  if 'A' ≤ c && c ≤ 'Z' then Char.ofNat (c.toNat + 32) else c

def asciiToLower (s : String) : String := String.mk (s.data.map charToLower)

/-- Bytewise string comparison as used by `sort.Strings`; on valid UTF-8
the byte order coincides with code-point lexicographic order. -/
def leChars : List Char → List Char → Bool
  | [], _ => true
  | _ :: _, [] => false
  | a :: as, b :: bs => if a < b then true else if b < a then false else leChars as bs

def leString (a b : String) : Bool := leChars a.data b.data

/-- Sorted insertion; `sortStrings` models `sort.Strings` (both produce
the sorted arrangement, which is unique on the duplicate-free key lists
it is applied to). -/
def insertSorted (x : String) : List String → List String
  | [] => [x]
  | y :: ys => if leString x y then x :: y :: ys else y :: insertSorted x ys

def sortStrings (l : List String) : List String := l.foldr insertSorted []

-- ## internal/engine/engine.go: scalar stringification (fmt %v)

/-- Least-significant-first decimal digits; the fuel argument bounds the
number of digits (`n` itself always suffices). -/
def natDigitsAux : Nat → Nat → List Char
  | 0, _ => []
  | _ + 1, 0 => []
  | fuel + 1, n => Char.ofNat (48 + n % 10) :: natDigitsAux fuel (n / 10)

/-- Most-significant-first decimal digits of a natural number. -/
def natDigits (n : Nat) : List Char :=
  if n = 0 then ['0'] else (natDigitsAux n n).reverse

def stripTrailingZeros (ds : List Char) : List Char :=
  (ds.reverse.dropWhile (fun c => c = '0')).reverse

/-- `fmt.Sprintf("%v", f)` for a `float64` holding the exact integer `n`
(the form `encoding/json` produces for integral JSON numbers with
`|n| < 2^53`): `strconv` shortest-digits `%g` formatting.  For such
values the shortest round-tripping digit string is the decimal form of
`|n|` (trailing zeros folded into the exponent), and `%g` switches to
scientific notation exactly when the decimal exponent reaches 6
(`strconv/ftoa.go` fixes `eprec = 6` for shortest formatting; exponents
below `-4` cannot arise for integers). -/
def goFloatString (n : Int) : String :=
  let ds := natDigits n.natAbs
  if ds.length ≤ 6 then toString n
  else
    let sig := stripTrailingZeros ds
    let mantissa :=
      match sig with
      | [] => "0"
      | d :: rest =>
        if rest.isEmpty then String.mk [d] else String.mk [d] ++ "." ++ String.mk rest
    let exp := ds.length - 1
    (if n < 0 then "-" else "") ++ mantissa ++ "e+" ++
      (if exp < 10 then "0" ++ toString exp else toString exp)

def joinSpace : List String → String
  | [] => ""
  | [x] => x
  | x :: rest => x ++ " " ++ joinSpace rest

mutual
/-- Nesting depth of a decoded JSON value; used as a fuel bound for the
functions that mirror Go's recursion over the value tree. -/
def jdepth : JValue → Nat
  | .obj entries => jdepthEntries entries + 1
  | .arr items => jdepthList items + 1
  | _ => 1
def jdepthEntries : List (String × JValue) → Nat
  | [] => 0
  | (_, v) :: rest => max (jdepth v) (jdepthEntries rest)
def jdepthList : List JValue → Nat
  | [] => 0
  | v :: rest => max (jdepth v) (jdepthList rest)
end

/-- `fmt.Sprintf("%v", v)` on a decoded JSON value.  Scalars print their
natural Go forms (`nil` prints `<nil>`); maps print `map[k:v ...]` with
keys in sorted order (as `fmt` does); slices print space-separated
`[...]`.  Fuel strictly exceeds the recursion depth, so the `0` branch
is unreachable. -/
def goSprintfVFuel : Nat → JValue → String
  | 0, _ => ""
  | fuel + 1, v =>
    match v with
    | .obj entries =>
      let keys := sortStrings (entries.map Prod.fst)
      "map[" ++ joinSpace (keys.map (fun k =>
        k ++ ":" ++ goSprintfVFuel fuel ((lookupAssoc entries k).getD .null))) ++ "]"
    | .arr items => "[" ++ joinSpace (items.map (fun it => goSprintfVFuel fuel it)) ++ "]"
    | .str s => s
    | .num n => goFloatString n
    | .jbool b => if b then "true" else "false"
    | .null => "<nil>"

def goSprintfV (v : JValue) : String := goSprintfVFuel (jdepth v) v

-- ## internal/engine/engine.go: field extraction and flattening

/-- `lookupField`: resolve a 1- or 2-segment field path in a parsed JSON
object.  A 2-segment path whose first segment is absent, or present but
not an object, fails the `map[string]any` type assertion and yields the
"missing nested object" error. -/
def lookupField (payload : List (String × JValue)) (field : String) : Except String JValue :=
  match splitOnDot field with
  | [p] =>
    match lookupAssoc payload p with
    | some v => .ok v
    | none => .error ("field " ++ field ++ " not found")
  | [p1, p2] =>
    match lookupAssoc payload p1 with
    | some (.obj child) =>
      match lookupAssoc child p2 with
      | some v => .ok v
      | none => .error ("field " ++ field ++ " not found")
    | _ => .error ("field " ++ field ++ " missing nested object")
  | _ => .error ("field " ++ field ++ " depth unsupported")

/-- `extractMatchValues`: apply `lookupField` to each configured field
path in order, stringify each result with `%v`, failing on the first
missing or invalid field with no partial output. -/
def extractMatchValues (payload : List (String × JValue)) : List String → Except String (List String)
  | [] => .ok []
  | field :: rest =>
    match lookupField payload field with
    | .error e => .error e
    | .ok val =>
      match extractMatchValues payload rest with
      | .error e => .error e
      | .ok out => .ok (goSprintfV val :: out)

/-- `flattenValues`: recursively decompose a JSON value into its leaf
values; object keys are visited in sorted order (the source sorts the
key slice for deterministic iteration), array items in original order,
and every scalar is stringified with `%v`.  Fuel strictly exceeds the
recursion depth, so the `0` branch is unreachable. -/
def flattenFuel : Nat → JValue → List String
  | 0, _ => []
  | fuel + 1, v =>
    match v with
    | .obj entries =>
      let keys := sortStrings (entries.map Prod.fst)
      keys.foldl (fun res k => res ++ flattenFuel fuel ((lookupAssoc entries k).getD .null)) []
    | .arr items => items.foldl (fun res item => res ++ flattenFuel fuel item) []
    | other => [goSprintfV other]

def flattenValues (v : JValue) : List String := flattenFuel (jdepth v) v

-- ## internal/engine/engine.go: year variants

/-- The `NN/` test of `yearVariants`: two ASCII digits then `/` (Go
inspects the first three bytes; the pattern is pure ASCII, so byte and
character readings agree). -/
def twoDigitYearStart (v : String) : Bool :=
  match v.data with
  | c0 :: c1 :: c2 :: _ => isDigit c0 && isDigit c1 && c2 = '/'
  | _ => false

/-- The `20NN/` test of `yearVariants`: `20`, two ASCII digits, `/`. -/
def fourDigitYearStart (v : String) : Bool :=
  match v.data with
  | c0 :: c1 :: c2 :: c3 :: c4 :: _ =>
    c0 = '2' && c1 = '0' && isDigit c2 && isDigit c3 && c4 = '/'
  | _ => false

/-- `v[2:]`: drop the first two bytes; applied only under the `20NN/`
guard, where those bytes are the ASCII characters `2`, `0`. -/
def dropTwoChars (v : String) : String := String.mk (v.data.drop 2)

/-- `yearVariants`: the value itself plus the `20`-prepended and
`20`-stripped year variants.  Go collects them into a
`map[string]struct{}` and returns its elements in unspecified order;
the embedding lists the same elements (pairwise distinct, see C4) in
insertion order. -/
def yearVariants (v : String) : List String :=
  let base := [v]
  let withTwo := if twoDigitYearStart v then base ++ ["20" ++ v] else base
  if fourDigitYearStart v then withTwo ++ [dropTwoChars v] else withTwo

-- ## Headers-aware engine revision: feeds and the Matcher

/-- `config.ReferenceFeed`.  `Topic` and `MatchFields` appear in
`internal/config/config.go`; the headers-aware engine revision also
reads `TopicHeaders` and `DisplayName()`.
Modelled from the spec: the configuration generation declaring
`TopicHeaders` (raw `key=value` strings — §3 "optional required header
key/value pairs") and a feed display name (an explicit name, falling
back to the topic, following the route naming convention) is not among
the provided sources. -/
structure ReferenceFeed where
  Name : String
  Topic : String
  TopicHeaders : List String
  MatchFields : List String

def ReferenceFeed.DisplayName (f : ReferenceFeed) : String :=
  if f.Name = "" then f.Topic else f.Name

/-- `%q` formatting of a header string (faithful for strings without
characters needing escapes, the only ones evaluated here). -/
def goQuote (s : String) : String := "\"" ++ s ++ "\""

/-- `strings.SplitN(kv, "=", 2)`: split at the first `=`; `none` when
the separator is absent (Go then returns a 1-element slice). -/
def splitFirstEqAux : List Char → List Char → Option (String × String)
  | [], _ => none
  | c :: cs, acc =>
    if c = '=' then some (String.mk acc.reverse, String.mk cs)
    else splitFirstEqAux cs (c :: acc)

def parseTopicHeadersAux : List String → List (String × String) →
    Except String (List (String × String))
  | [], out => .ok out
  | kv :: rest, out =>
    match splitFirstEqAux kv.data [] with
    | none => .error ("invalid topicHeader " ++ goQuote kv ++ " (expected key=value)")
    | some (k, v) =>
      if k = "" then .error ("invalid topicHeader " ++ goQuote kv ++ " (expected key=value)")
      else parseTopicHeadersAux rest (assignAssoc out (asciiToLower k) v)

/-- `parseTopicHeaders`: parse raw `key=value` strings into a header
map with lowercased keys; an empty input yields an empty map (Go
returns a nil map). -/
def parseTopicHeaders (raw : List String) : Except String (List (String × String)) :=
  parseTopicHeadersAux raw []

/-- The per-feed matcher record built by `NewMatcher`. -/
structure feedMatcher where
  name : String
  topic : String
  topicHeaders : List (String × String)
  fields : List String

/-- `Matcher` coordinates reference caching and source matching per
route.  The store is carried in the structure and threaded explicitly
through the operations that mutate it in Go. -/
structure Matcher where
  routeID : String
  feeds : List feedMatcher
  store : MatchStore

def buildFeedMatchers : List ReferenceFeed → Except String (List feedMatcher)
  | [] => .ok []
  | f :: rest =>
    match parseTopicHeaders f.TopicHeaders with
    | .error e => .error e
    | .ok hdrs =>
      match buildFeedMatchers rest with
      | .error e => .error e
      | .ok out => .ok (⟨f.DisplayName, f.Topic, hdrs, f.MatchFields⟩ :: out)

/-- `NewMatcher` (headers-aware revision): construct a matcher for a
specific route, failing on an invalid `topicHeader` declaration. -/
def NewMatcher (routeID : String) (feeds : List ReferenceFeed) (store : MatchStore) :
    Except String Matcher :=
  match buildFeedMatchers feeds with
  | .error e => .error e
  | .ok fm => .ok ⟨routeID, fm, store⟩

/-- `headersMatch`: no expected headers matches anything; otherwise
every expected pair must be present with an equal value.  Expected keys
are lowercased again at lookup (they are already lowercase when built
by `parseTopicHeaders`); a nil actual map behaves as an empty one. -/
def headersMatch (expected actual : List (String × String)) : Bool :=
  expected.all (fun kv => lookupAssoc actual (asciiToLower kv.1) == some kv.2)

/-- `feedFor`: the first configured feed whose topic equals the message
topic and whose headers match. -/
def Matcher.feedFor (m : Matcher) (topic : String) (headers : List (String × String)) :
    Option feedMatcher :=
  m.feeds.find? (fun f => f.topic == topic && headersMatch f.topicHeaders headers)

/-- Modelled from the spec: the reference-collector loop that builds the
incoming message's header map is not among the provided sources; §4.4
requires header keys to be matched case-insensitively, so the collector
is modelled as lowercasing each header key while building the map
(map-assignment semantics for repeated keys). -/
def normalizeHeaders (hs : List (String × String)) : List (String × String) :=
  hs.foldl (fun m p => assignAssoc m (asciiToLower p.1) p.2) []

/-- The insertion loop shared by `ProcessReference` and `AddValues`: add
every year variant of every value, recording whether anything was newly
inserted. -/
def addAllVariants (s : MatchStore) (route : String) (values : List String) :
    MatchStore × Bool :=
  values.foldl (fun acc v =>
    (yearVariants v).foldl (fun acc2 variant =>
      let r := acc2.1.Add route variant
      (r.1, acc2.2 || r.2)) acc) (s, false)

/-- `ProcessReference` (headers-aware revision): resolve the feed via
`feedFor`, parse the payload (`none` models a body that
`json.Unmarshal` rejects for a `map[string]any` target), extract the
configured fields, and store every year variant of every extracted
value.  Returns the updated matcher next to Go's
`(added, feedName, error)` result. -/
def Matcher.ProcessReference (m : Matcher) (topic : String)
    (headers : List (String × String)) (payload : Option (List (String × JValue))) :
    Matcher × Except String (Bool × String) :=
  match m.feedFor topic headers with
  | none =>
    (m, .error ("no match fields configured for topic " ++ topic ++ " with provided headers"))
  | some feed =>
    match payload with
    | none => (m, .error "invalid payload")
    | some body =>
      match extractMatchValues body feed.fields with
      | .error e => (m, .error e)
      | .ok values =>
        let r := addAllVariants m.store m.routeID values
        ({ m with store := r.1 }, .ok (r.2, feed.name))

/-- `ShouldForward`: true when any year variant of any leaf value of the
payload is cached for the route (`none` models a payload that fails to
parse as JSON). -/
def Matcher.ShouldForward (m : Matcher) (payload : Option JValue) : Except String Bool :=
  match payload with
  | none => .error "invalid payload"
  | some body =>
    .ok ((flattenValues body).any (fun v =>
      (yearVariants v).any (fun variant => m.store.Contains m.routeID variant)))

/-- `Size`: the number of cached values for the route. -/
def Matcher.Size (m : Matcher) : Nat := m.store.Size m.routeID

/-- `AddValues`: variant-expand and insert raw reference values (HTTP
injection). -/
def Matcher.AddValues (m : Matcher) (values : List String) : Matcher × Bool :=
  let r := addAllVariants m.store m.routeID values
  ({ m with store := r.1 }, r.2)

-- ## Claim C4 (year-variant expander)

theorem mem_yearVariants (v x : String) :
    x ∈ yearVariants v ↔
      x = v ∨ (twoDigitYearStart v = true ∧ x = "20" ++ v) ∨
        (fourDigitYearStart v = true ∧ x = dropTwoChars v) := by
  by_cases h1 : twoDigitYearStart v <;> by_cases h2 : fourDigitYearStart v <;>
    simp [yearVariants, h1, h2]

theorem yearStart_exclusive (v : String) :
    twoDigitYearStart v = true → fourDigitYearStart v = true → False := by
  intro h1 h2
  obtain ⟨data⟩ := v
  rcases data with _ | ⟨c0, _ | ⟨c1, _ | ⟨c2, _ | ⟨c3, _ | ⟨c4, rest⟩⟩⟩⟩⟩
  · simp [fourDigitYearStart] at h2
  · simp [fourDigitYearStart] at h2
  · simp [fourDigitYearStart] at h2
  · simp [fourDigitYearStart] at h2
  · simp [fourDigitYearStart] at h2
  · have hc2 : c2 = '/' := by
      simp [twoDigitYearStart, isDigit] at h1
      tauto
    have hd : '0' ≤ c2 := by
      simp [fourDigitYearStart, isDigit] at h2
      tauto
    rw [hc2] at hd
    exact absurd hd (by decide)

theorem string_append_20_length (v : String) : ("20" ++ v).length = v.length + 2 := by
  rw [String.length_append]
  have h20 : ("20" : String).length = 2 := rfl
  omega

theorem dropTwoChars_length (v : String) : (dropTwoChars v).length = v.length - 2 := by
  show (v.data.drop 2).length = v.data.length - 2
  simp

/-- C4: for every string v the variant expander's result contains v
itself; it contains "20" prepended to v exactly when v begins with two
ASCII digits then a slash; it contains v with its leading "20" stripped
exactly when v begins with "20", two ASCII digits and a slash; the two
prefix conditions are mutually exclusive; and the result has at most
two elements. -/
theorem c4_year_variant_set (v : String) :
    v ∈ yearVariants v ∧
      (("20" ++ v) ∈ yearVariants v ↔ twoDigitYearStart v = true) ∧
      (∀ w : String, v = "20" ++ w →
        (w ∈ yearVariants v ↔ fourDigitYearStart v = true)) ∧
      ¬(twoDigitYearStart v = true ∧ fourDigitYearStart v = true) ∧
      (yearVariants v).length ≤ 2 := by
  have hne1 : "20" ++ v ≠ v := by
    intro h
    have := congrArg String.length h
    rw [string_append_20_length] at this
    omega
  have hne2 : "20" ++ v ≠ dropTwoChars v := by
    intro h
    have := congrArg String.length h
    rw [string_append_20_length, dropTwoChars_length] at this
    omega
  refine ⟨(mem_yearVariants v v).mpr (Or.inl rfl), ?_, ?_, ?_, ?_⟩
  · constructor
    · intro hm
      rcases (mem_yearVariants v _).mp hm with h | ⟨hA, _⟩ | ⟨hB, hx⟩
      · exact absurd h hne1
      · exact hA
      · exact absurd hx hne2
    · intro hA
      exact (mem_yearVariants v _).mpr (Or.inr (Or.inl ⟨hA, rfl⟩))
  · intro w hw
    have hvlen : v.length = w.length + 2 := by
      rw [hw, string_append_20_length]
    constructor
    · intro hm
      rcases (mem_yearVariants v _).mp hm with h | ⟨_, hx⟩ | ⟨hB, _⟩
      · rw [h] at hvlen
        omega
      · have := congrArg String.length hx
        rw [string_append_20_length] at this
        omega
      · exact hB
    · intro hB
      have hdrop : dropTwoChars v = w := by
        obtain ⟨wd⟩ := w
        rw [hw]
        simp [dropTwoChars]
      exact (mem_yearVariants v _).mpr (Or.inr (Or.inr ⟨hB, hdrop.symm⟩))
  · rintro ⟨h1, h2⟩
    exact yearStart_exclusive v h1 h2
  · by_cases h1 : twoDigitYearStart v <;> by_cases h2 : fourDigitYearStart v
    · exact (yearStart_exclusive v h1 h2).elim
    · simp [yearVariants, h1, h2]
    · simp [yearVariants, h1, h2]
    · simp [yearVariants, h1, h2]

theorem c4_year_variant_set_witness :
    "2024/001" = "20" ++ "24/001" ∧
      ("24/001" ∈ yearVariants "2024/001" ↔ fourDigitYearStart "2024/001" = true) :=
  ⟨by decide, (c4_year_variant_set "2024/001").2.2.1 "24/001" (by decide)⟩

-- ## Claim C3 (lookupField case analysis)

/-- C3 counterexample: on the empty object, the 2-segment path "a.b"
(whose first segment is absent) fails with the "missing nested object"
error (InvalidNesting), not with the "not found" error (FieldNotFound)
the claim requires for absent segments. -/
theorem c3_counterexample_absent_first_segment :
    lookupField [] "a.b" = .error "field a.b missing nested object" ∧
      "field a.b missing nested object" ≠ "field a.b not found" :=
  ⟨rfl, by decide⟩

/-- C3 (amended): lookupField returns the exact value at every present
path of depth 1 or 2; a depth-1 path naming an absent key, or a depth-2
path whose second segment is absent, fails with FieldNotFound; a
depth-2 path whose first segment is absent, or is present but does not
resolve to a nested object, fails with InvalidNesting; every path of
more than 2 segments fails with UnsupportedDepth. -/
theorem c3_lookup_field_cases (payload : List (String × JValue)) (field : String) :
    (∀ p, splitOnDot field = [p] →
      (∀ v, lookupAssoc payload p = some v → lookupField payload field = .ok v) ∧
      (lookupAssoc payload p = none →
        lookupField payload field = .error ("field " ++ field ++ " not found"))) ∧
    (∀ p1 p2, splitOnDot field = [p1, p2] →
      (∀ child, lookupAssoc payload p1 = some (.obj child) →
        (∀ v, lookupAssoc child p2 = some v → lookupField payload field = .ok v) ∧
        (lookupAssoc child p2 = none →
          lookupField payload field = .error ("field " ++ field ++ " not found"))) ∧
      ((∀ child, lookupAssoc payload p1 ≠ some (.obj child)) →
        lookupField payload field = .error ("field " ++ field ++ " missing nested object"))) ∧
    (2 < (splitOnDot field).length →
      lookupField payload field = .error ("field " ++ field ++ " depth unsupported")) := by
  refine ⟨?_, ?_, ?_⟩
  · intro p hsplit
    constructor
    · intro v hv
      simp [lookupField, hsplit, hv]
    · intro hnone
      simp [lookupField, hsplit, hnone]
  · intro p1 p2 hsplit
    constructor
    · intro child hchild
      constructor
      · intro v hv
        simp [lookupField, hsplit, hchild, hv]
      · intro hnone
        simp [lookupField, hsplit, hchild, hnone]
    · intro hno
      cases hl : lookupAssoc payload p1 with
      | none => simp [lookupField, hsplit, hl]
      | some w =>
        cases w with
        | obj child => exact absurd hl (hno child)
        | arr items => simp [lookupField, hsplit, hl]
        | str s => simp [lookupField, hsplit, hl]
        | num n => simp [lookupField, hsplit, hl]
        | jbool b => simp [lookupField, hsplit, hl]
        | null => simp [lookupField, hsplit, hl]
  · intro hlen
    rcases hsp : splitOnDot field with _ | ⟨a, _ | ⟨b, _ | ⟨c, rest⟩⟩⟩
    · rw [hsp] at hlen
      simp at hlen
    · rw [hsp] at hlen
      simp at hlen
    · rw [hsp] at hlen
      simp at hlen
    · simp [lookupField, hsp]

theorem c3_lookup_field_cases_witness :
    splitOnDot "a.b" = ["a", "b"] ∧
      lookupField [("a", JValue.obj [("b", JValue.str "x")])] "a.b" =
        Except.ok (JValue.str "x") ∧
      lookupField [("c", JValue.num 7)] "q.b" =
        Except.error ("field " ++ "q.b" ++ " missing nested object") :=
  ⟨by decide,
   (((c3_lookup_field_cases [("a", JValue.obj [("b", JValue.str "x")])] "a.b").2.1 "a" "b"
      (by decide)).1 [("b", JValue.str "x")] rfl).1 (JValue.str "x") rfl,
   ((c3_lookup_field_cases [("c", JValue.num 7)] "q.b").2.1 "q" "b" (by decide)).2
     (fun child h => by
       rw [show lookupAssoc [("c", JValue.num 7)] "q" = none from rfl] at h
       exact Option.noConfusion h)⟩

-- ## Claim C9 (scalar stringification)

theorem natDigitsAux_length_le (fuel : Nat) :
    ∀ m k, m < 10 ^ k → (natDigitsAux fuel m).length ≤ k := by
  induction fuel with
  | zero => intro m k _; simp [natDigitsAux]
  | succ fuel ih =>
    intro m k hm
    cases m with
    | zero => simp [natDigitsAux]
    | succ j =>
      have hk : k ≠ 0 := by
        intro h
        rw [h] at hm
        omega
      obtain ⟨k0, rfl⟩ := Nat.exists_eq_succ_of_ne_zero hk
      have hdiv : (j + 1) / 10 < 10 ^ k0 := by
        rw [Nat.div_lt_iff_lt_mul (by omega)]
        calc j + 1 < 10 ^ (k0 + 1) := hm
        _ = 10 ^ k0 * 10 := by rw [pow_succ]
      have := ih ((j + 1) / 10) k0 hdiv
      simp only [natDigitsAux, List.length_cons]
      omega

/-- C9 counterexample: the number 1000000 does not stringify to
"1000000"; `json.Unmarshal` decodes it as `float64` and `%v` renders
that in scientific notation. -/
theorem c9_counterexample_scientific_notation :
    flattenValues (JValue.num 1000000) = ["1e+06"] ∧ ("1e+06" : String) ≠ "1000000" :=
  ⟨rfl, by decide⟩

/-- C9 (amended): string and boolean leaves stringify to their natural
text, and a JSON number stringifies to its natural decimal form when
its magnitude stays below 10^6 (decimal exponent below 6), both under
flattening and under field extraction; from 10^6 on, %v renders the
float64 the number was decoded into in scientific notation. -/
theorem c9_scalar_stringification (s : String) (b : Bool) (n : Int)
    (hn : n.natAbs < 1000000) :
    flattenValues (.str s) = [s] ∧
      flattenValues (.jbool b) = [if b then "true" else "false"] ∧
      flattenValues (.num n) = [toString n] ∧
      extractMatchValues [("f", .num n)] ["f"] = .ok [toString n] := by
  have hds : (natDigits n.natAbs).length ≤ 6 := by
    unfold natDigits
    by_cases h0 : n.natAbs = 0
    · simp [h0]
    · rw [if_neg h0, List.length_reverse]
      exact natDigitsAux_length_le _ _ 6 (by norm_num at hn ⊢; omega)
  have hfloat : goFloatString n = toString n := by
    unfold goFloatString
    simp [hds]
  refine ⟨?_, ?_, ?_, ?_⟩
  · simp [flattenValues, flattenFuel, jdepth, goSprintfV, goSprintfVFuel]
  · simp [flattenValues, flattenFuel, jdepth, goSprintfV, goSprintfVFuel]
  · simp [flattenValues, flattenFuel, jdepth, goSprintfV, goSprintfVFuel, hfloat]
  · simp [extractMatchValues, lookupField, splitOnDot, splitOnDotAux, lookupAssoc,
      goSprintfV, goSprintfVFuel, jdepth, hfloat]

theorem c9_scalar_stringification_witness :
    (42 : Int).natAbs < 1000000 ∧ flattenValues (JValue.num 42) = [toString (42 : Int)] :=
  ⟨by decide, (c9_scalar_stringification "v" true 42 (by decide)).2.2.1⟩

-- ## Claim C1 (variant matching end to end)

theorem contains_add_self (s : MatchStore) (r v : String) :
    ((s.Add r v).1).Contains r v = true := by
  by_cases h : v ∈ lookupRoute s.values r
  · simp [MatchStore.Add, h, MatchStore.Contains]
  · simp [MatchStore.Add, h, MatchStore.Contains, lookupRoute_assign_self]

theorem contains_add_mono (s : MatchStore) (r v r2 w : String)
    (h : s.Contains r v = true) : ((s.Add r2 w).1).Contains r v = true := by
  by_cases hw : w ∈ lookupRoute s.values r2
  · simpa [MatchStore.Add, hw] using h
  · have hv : v ∈ lookupRoute s.values r := by
      simpa [MatchStore.Contains] using h
    by_cases hr : r = r2
    · subst hr
      simp [MatchStore.Add, hw, MatchStore.Contains, lookupRoute_assign_self]
      exact Or.inl hv
    · simp [MatchStore.Add, hw, MatchStore.Contains,
        lookupRoute_assign_other _ _ _ _ hr]
      exact hv

theorem shouldForward_of_contains (m : Matcher) (body : JValue) (x : String)
    (hx : x ∈ flattenValues body) (hc : m.store.Contains m.routeID x = true) :
    m.ShouldForward (some body) = .ok true := by
  have hany : (flattenValues body).any (fun v => (yearVariants v).any
      (fun variant => m.store.Contains m.routeID variant)) = true := by
    rw [List.any_eq_true]
    refine ⟨x, hx, ?_⟩
    rw [List.any_eq_true]
    exact ⟨x, (mem_yearVariants x x).mpr (Or.inl rfl), hc⟩
  simp [Matcher.ShouldForward, hany]

/-- C1: after the reference value "24/001" is ingested for a route (via
AddValues or ProcessReference), ShouldForward accepts every payload
containing "2024/001" among its leaf values, and vice versa (a cached
"2024/001" matches a payload containing "24/001"); a cached "2024/001"
alone never makes ShouldForward accept a payload whose only candidate
value is "24/002". -/
theorem c1_year_variant_forwarding :
    (∀ (s : MatchStore) (r : String) (feeds : List feedMatcher) (body : JValue),
      "2024/001" ∈ flattenValues body →
      (Matcher.AddValues ⟨r, feeds, s⟩ ["24/001"]).1.ShouldForward (some body) = .ok true) ∧
    (∀ (s : MatchStore) (r : String) (feeds : List feedMatcher) (body : JValue),
      "24/001" ∈ flattenValues body →
      (Matcher.AddValues ⟨r, feeds, s⟩ ["2024/001"]).1.ShouldForward (some body) = .ok true) ∧
    (∀ (s : MatchStore) (r : String) (body : JValue),
      "2024/001" ∈ flattenValues body →
      ((⟨r, [⟨"feed", "t", [], ["ref"]⟩], s⟩ : Matcher).ProcessReference "t" []
        (some [("ref", JValue.str "24/001")])).1.ShouldForward (some body) = .ok true) ∧
    (∀ (r : String) (feeds : List feedMatcher) (body : JValue),
      flattenValues body = ["24/002"] →
      (Matcher.AddValues ⟨r, feeds, NewMatchStore⟩ ["2024/001"]).1.ShouldForward (some body) =
        .ok false) := by
  have hyv1 : yearVariants "24/001" = ["24/001", "2024/001"] := by decide
  have hyv2 : yearVariants "2024/001" = ["2024/001", "24/001"] := by decide
  have hyv3 : yearVariants "24/002" = ["24/002", "2024/002"] := by decide
  refine ⟨?_, ?_, ?_, ?_⟩
  · intro s r feeds body h
    apply shouldForward_of_contains _ body "2024/001" h
    simp only [Matcher.AddValues, addAllVariants, hyv1, List.foldl]
    exact contains_add_self _ _ _
  · intro s r feeds body h
    apply shouldForward_of_contains _ body "24/001" h
    simp only [Matcher.AddValues, addAllVariants, hyv2, List.foldl]
    exact contains_add_self _ _ _
  · intro s r body h
    have hex : extractMatchValues [("ref", JValue.str "24/001")] ["ref"] =
        .ok ["24/001"] := rfl
    have hfeed : (⟨r, [⟨"feed", "t", [], ["ref"]⟩], s⟩ : Matcher).feedFor "t" [] =
        some ⟨"feed", "t", [], ["ref"]⟩ := rfl
    apply shouldForward_of_contains _ body "2024/001" h
    simp only [Matcher.ProcessReference, hfeed, hex, addAllVariants, hyv1, List.foldl]
    exact contains_add_self _ _ _
  · intro r feeds body hflat
    have hstore : (Matcher.AddValues ⟨r, feeds, NewMatchStore⟩ ["2024/001"]).1.store =
        ⟨[(r, ["2024/001", "24/001"])]⟩ := by
      simp [Matcher.AddValues, addAllVariants, hyv2, NewMatchStore, MatchStore.Add,
        lookupRoute, lookupAssoc, assignAssoc]
    have hrid : (Matcher.AddValues ⟨r, feeds, NewMatchStore⟩ ["2024/001"]).1.routeID = r := by
      simp [Matcher.AddValues]
    simp [Matcher.ShouldForward, hflat, hstore, hyv3, MatchStore.Contains,
      lookupRoute, lookupAssoc, hrid]

theorem c1_year_variant_forwarding_witness :
    "2024/001" ∈ flattenValues (JValue.str "2024/001") ∧
      (Matcher.AddValues ⟨"route", [], NewMatchStore⟩ ["24/001"]).1.ShouldForward
        (some (JValue.str "2024/001")) = .ok true :=
  ⟨by decide,
   c1_year_variant_forwarding.1 NewMatchStore "route" [] (JValue.str "2024/001") (by decide)⟩

-- ## Claim C7 (feed resolution)

/-- The spec-side selection criterion of §4.4: the feed's topic equals
the message topic exactly, and every required header pair is present in
the (case-insensitively keyed) message headers with an equal value. -/
def feedSelects (f : feedMatcher) (topic : String) (hs : List (String × String)) : Prop :=
  f.topic = topic ∧ ∀ kv ∈ f.topicHeaders,
    lookupAssoc (normalizeHeaders hs) (asciiToLower kv.1) = some kv.2

theorem feed_pred_iff (f : feedMatcher) (topic : String) (hs : List (String × String)) :
    (f.topic == topic && headersMatch f.topicHeaders (normalizeHeaders hs)) = true ↔
      feedSelects f topic hs := by
  simp [headersMatch, feedSelects, List.all_eq_true]

/-- C7: feed resolution selects exactly the first feed in configuration
order whose topic equals the message topic and whose required header
pairs are all present with equal values, keys compared
case-insensitively (configured keys are lowercased by the parser and
again at lookup; message header keys are lowercased while the header
map is built). -/
theorem c7_feed_resolution (m : Matcher) (topic : String) (hs : List (String × String))
    (f : feedMatcher) :
    m.feedFor topic (normalizeHeaders hs) = some f ↔
      feedSelects f topic hs ∧ ∃ pre post, m.feeds = pre ++ f :: post ∧
        ∀ g ∈ pre, ¬ feedSelects g topic hs := by
  unfold Matcher.feedFor
  rw [List.find?_eq_some]
  constructor
  · rintro ⟨hpf, pre, post, heq, hall⟩
    refine ⟨(feed_pred_iff f topic hs).mp hpf, pre, post, heq, ?_⟩
    intro g hg hsel
    have hfalse := hall g hg
    rw [Bool.not_eq_eq_eq_not, Bool.not_true] at hfalse
    rw [(feed_pred_iff g topic hs).mpr hsel] at hfalse
    cases hfalse
  · rintro ⟨hsel, pre, post, heq, hall⟩
    refine ⟨(feed_pred_iff f topic hs).mpr hsel, pre, post, heq, ?_⟩
    intro g hg
    rw [Bool.not_eq_eq_eq_not, Bool.not_true]
    by_cases hp : (g.topic == topic && headersMatch g.topicHeaders (normalizeHeaders hs)) = true
    · exact absurd ((feed_pred_iff g topic hs).mp hp) (hall g hg)
    · exact Bool.of_not_eq_true hp

-- ## Claim C10 (ProcessReference atomicity)

/-- C10: ProcessReference is atomic on failure: whenever it returns an
error (no feed configured for the topic/headers, malformed payload, or
a configured field failing to resolve), the matcher — in particular the
Match Store — is returned exactly as it was, with nothing added. -/
theorem c10_process_reference_atomic (m : Matcher) (topic : String)
    (headers : List (String × String)) (payload : Option (List (String × JValue)))
    (e : String) (h : (m.ProcessReference topic headers payload).2 = .error e) :
    (m.ProcessReference topic headers payload).1 = m := by
  cases hf : m.feedFor topic headers with
  | none => simp [Matcher.ProcessReference, hf]
  | some feed =>
    cases payload with
    | none => simp [Matcher.ProcessReference, hf]
    | some body =>
      cases hex : extractMatchValues body feed.fields with
      | error e2 => simp [Matcher.ProcessReference, hf, hex]
      | ok values => simp [Matcher.ProcessReference, hf, hex] at h

theorem c10_process_reference_atomic_witness :
    ((⟨"route", [], NewMatchStore⟩ : Matcher).ProcessReference "t" [] none).2 =
      .error ("no match fields configured for topic " ++ "t" ++ " with provided headers") ∧
      ((⟨"route", [], NewMatchStore⟩ : Matcher).ProcessReference "t" [] none).1 =
        ⟨"route", [], NewMatchStore⟩ :=
  ⟨rfl, c10_process_reference_atomic _ "t" [] none _ rfl⟩

-- ## internal/config/config.go (current generation) and cmd/filter/main.go

structure TLSConfig where
  CAFile : String
  CertFile : String
  KeyFile : String
  InsecureSkipVerify : Bool

/-- `TLSConfig.validate` (the nil receiver is the `none` case of the
caller). -/
def tlsValidate (t : TLSConfig) : Option String :=
  if t.CertFile ≠ "" ∧ t.KeyFile = "" then some "keyFile required when certFile is set"
  else if t.KeyFile ≠ "" ∧ t.CertFile = "" then some "certFile required when keyFile is set"
  else none

structure ClusterConfig where
  Brokers : List String
  TLS : Option TLSConfig

/-- `ClusterConfig.validate`. -/
def clusterValidate (c : ClusterConfig) : Option String :=
  if c.Brokers.isEmpty then some "brokers cannot be empty"
  else
    match c.TLS with
    | none => none
    | some t => tlsValidate t

structure HTTPServer where
  ListenAddr : String

structure Storage where
  Path : String
  FlushInterval : Nat

/-- `config.Route` (current generation): name, source topics,
destination topic, reference feeds. -/
structure Route where
  Name : String
  SourceTopics : List String
  DestinationTopic : String
  ReferenceFeeds : List ReferenceFeed

/-- `Route.DisplayName`: the name, falling back to the destination
topic. -/
def Route.DisplayName (r : Route) : String :=
  if r.Name = "" then r.DestinationTopic else r.Name

/-- The match-field loop of `Route.validate`: each field path must have
1 or 2 non-empty dot-separated segments. -/
def validateFields (idx : Nat) : List String → Option String
  | [] => none
  | field :: rest =>
    let parts := splitOnDot field
    if parts.length = 0 ∨ parts.length > 2 then
      some ("route " ++ toString idx ++ ": match field " ++ goQuote field ++
        " must be \x27field\x27 or \x27parent.child\x27")
    else if parts.any (fun part => part = "") then
      some ("route " ++ toString idx ++ ": match field " ++ goQuote field ++ " is invalid")
    else validateFields idx rest

/-- The reference-feed loop of `Route.validate`. -/
def validateFeeds (idx : Nat) : Nat → List ReferenceFeed → Option String
  | _, [] => none
  | fi, feed :: rest =>
    if feed.Topic = "" then
      some ("route " ++ toString idx ++ ": reference feed " ++ toString fi ++
        " topic is required")
    else if feed.MatchFields.isEmpty then
      some ("route " ++ toString idx ++ ": reference feed " ++ feed.Topic ++
        " matchFields cannot be empty")
    else
      match validateFields idx feed.MatchFields with
      | some e => some e
      | none => validateFeeds idx (fi + 1) rest

/-- `Route.validate`. -/
def Route.validate (r : Route) (idx : Nat) : Option String :=
  if r.SourceTopics.isEmpty then
    some ("route " ++ toString idx ++ ": sourceTopics cannot be empty")
  else if r.DestinationTopic = "" then
    some ("route " ++ toString idx ++ ": destinationTopic is required")
  else if r.ReferenceFeeds.isEmpty then
    some ("route " ++ toString idx ++ ": referenceFeeds cannot be empty")
  else validateFeeds idx 0 r.ReferenceFeeds

structure Config where
  SourceCluster : ClusterConfig
  BridgeCluster : ClusterConfig
  ClientID : String
  SourceGroupID : String
  ReferenceGroupID : String
  CommitInterval : Nat
  Routes : List Route
  HTTP : HTTPServer
  Storage : Storage

/-- The route loop of `Config.Validate`
(`for i := range c.Routes { c.Routes[i].validate(i) }`). -/
def validateRoutes : List Route → Nat → Option String
  | [], _ => none
  | r :: rest, i =>
    match r.validate i with
    | some e => some e
    | none => validateRoutes rest (i + 1)

/-- `Config.Validate`: `none` means the configuration is accepted and
the process proceeds to start.  The source additionally fills the
defaulted `HTTP.ListenAddr` and `Storage.FlushInterval` fields after
the checks, which cannot affect whether an error is returned. -/
def Config.Validate (c : Config) : Option String :=
  match clusterValidate c.SourceCluster with
  | some e => some ("sourceCluster: " ++ e)
  | none =>
    match clusterValidate c.BridgeCluster with
    | some e => some ("bridgeCluster: " ++ e)
    | none =>
      if c.ClientID = "" then some "clientId is required"
      else if c.SourceGroupID = "" then some "sourceGroupId is required"
      else if c.ReferenceGroupID = "" then some "referenceGroupId is required"
      else if c.Routes.isEmpty then some "at least one route must be defined"
      else validateRoutes c.Routes 0

/-- `slug` (main.go): lowercase, then replace spaces, slashes,
backslashes and dots with dashes. -/
def slugChar (c : Char) : Char :=
  if c = ' ' ∨ c = '/' ∨ c = '\\' ∨ c = '.' then '-' else c

def slug (s : String) : String := String.mk ((asciiToLower s).data.map slugChar)

/-- `routeKey` (main.go): the route identifier used to key matchers and
the Match Store. -/
def routeKey (r : Route) : String := slug r.DisplayName

-- ## Claim C8 (duplicate route identifiers)

theorem validateFields_none_idx (i j : Nat) (fields : List String)
    (h : validateFields i fields = none) : validateFields j fields = none := by
  induction fields with
  | nil => rfl
  | cons field rest ih =>
    simp only [validateFields] at h ⊢
    by_cases h1 : (splitOnDot field).length = 0 ∨ (splitOnDot field).length > 2
    · rw [if_pos h1] at h
      cases h
    · rw [if_neg h1] at h ⊢
      by_cases h2 : ((splitOnDot field).any fun part => part = "") = true
      · rw [if_pos h2] at h
        cases h
      · rw [if_neg h2] at h ⊢
        exact ih h

theorem validateFeeds_none_idx (i j : Nat) (feeds : List ReferenceFeed) :
    ∀ fi fj, validateFeeds i fi feeds = none → validateFeeds j fj feeds = none := by
  induction feeds with
  | nil => intro _ _ _; rfl
  | cons feed rest ih =>
    intro fi fj h
    simp only [validateFeeds] at h ⊢
    by_cases h1 : feed.Topic = ""
    · rw [if_pos h1] at h
      cases h
    · rw [if_neg h1] at h ⊢
      by_cases h2 : feed.MatchFields.isEmpty = true
      · rw [if_pos h2] at h
        cases h
      · rw [if_neg h2] at h ⊢
        cases hf : validateFields i feed.MatchFields with
        | some e =>
          rw [hf] at h
          cases h
        | none =>
          rw [hf] at h
          rw [validateFields_none_idx i j feed.MatchFields hf]
          exact ih _ _ h

theorem route_validate_none_idx (r : Route) (i j : Nat)
    (h : r.validate i = none) : r.validate j = none := by
  simp only [Route.validate] at h ⊢
  by_cases h1 : r.SourceTopics.isEmpty = true
  · rw [if_pos h1] at h
    cases h
  · rw [if_neg h1] at h ⊢
    by_cases h2 : r.DestinationTopic = ""
    · rw [if_pos h2] at h
      cases h
    · rw [if_neg h2] at h ⊢
      by_cases h3 : r.ReferenceFeeds.isEmpty = true
      · rw [if_pos h3] at h
        cases h
      · rw [if_neg h3] at h ⊢
        exact validateFeeds_none_idx i j r.ReferenceFeeds 0 0 h

theorem validateRoutes_mem_none (routes : List Route) :
    ∀ i, validateRoutes routes i = none → ∀ r ∈ routes, r.validate 0 = none := by
  induction routes with
  | nil => intro _ _ r hr; cases hr
  | cons rr rest ih =>
    intro i h r hr
    simp only [validateRoutes] at h
    cases hv : rr.validate i with
    | some e =>
      rw [hv] at h
      cases h
    | none =>
      rw [hv] at h
      rcases List.mem_cons.mp hr with rfl | hr2
      · exact route_validate_none_idx r i 0 hv
      · exact ih (i + 1) h r hr2

theorem validateRoutes_append_dup (routes : List Route) (r : Route)
    (hr : r.validate 0 = none) :
    ∀ i, validateRoutes routes i = none → validateRoutes (routes ++ [r]) i = none := by
  induction routes with
  | nil =>
    intro i _
    simp only [List.nil_append, validateRoutes]
    rw [route_validate_none_idx r 0 i hr]
  | cons rr rest ih =>
    intro i h
    simp only [validateRoutes, List.cons_append] at h ⊢
    cases hv : rr.validate i with
    | some e =>
      rw [hv] at h
      cases h
    | none =>
      rw [hv] at h
      exact ih (i + 1) h

theorem config_validate_none_iff (c : Config) :
    c.Validate = none ↔
      clusterValidate c.SourceCluster = none ∧ clusterValidate c.BridgeCluster = none ∧
      c.ClientID ≠ "" ∧ c.SourceGroupID ≠ "" ∧ c.ReferenceGroupID ≠ "" ∧
      c.Routes.isEmpty = false ∧ validateRoutes c.Routes 0 = none := by
  unfold Config.Validate
  cases h1 : clusterValidate c.SourceCluster <;>
    cases h2 : clusterValidate c.BridgeCluster <;>
    by_cases hc1 : c.ClientID = "" <;> by_cases hc2 : c.SourceGroupID = "" <;>
    by_cases hc3 : c.ReferenceGroupID = "" <;> by_cases hc4 : c.Routes.isEmpty <;>
    simp [hc1, hc2, hc3, hc4]

/-- C8 counterexample: a configuration whose two routes resolve to the
same route identifier ("Route.A" and "route-a" both slug to "route-a")
passes Validate unchallenged, so startup proceeds. -/
theorem c8_counterexample_duplicate_ids_pass_validate :
    Config.Validate ⟨⟨["b:9092"], none⟩, ⟨["b:9092"], none⟩, "cid", "sg", "rg", 0,
      [⟨"Route.A", ["s1"], "d1", [⟨"", "ref1", [], ["f"]⟩]⟩,
       ⟨"route-a", ["s2"], "d2", [⟨"", "ref2", [], ["g"]⟩]⟩],
      ⟨":8080"⟩, ⟨"", 0⟩⟩ = none ∧
      routeKey ⟨"Route.A", ["s1"], "d1", [⟨"", "ref1", [], ["f"]⟩]⟩ =
        routeKey ⟨"route-a", ["s2"], "d2", [⟨"", "ref2", [], ["g"]⟩]⟩ ∧
      ("Route.A" : String) ≠ "route-a" :=
  ⟨by decide, by decide, by decide⟩

/-- C8 (amended): a duplicate route identifier is NOT a configuration
error: extending any accepted configuration with an exact duplicate of
one of its routes (hence a duplicated route identifier) yields a
configuration that Validate still accepts, so the process starts. -/
theorem c8_duplicate_route_id_not_fatal (c : Config) (r : Route)
    (hmem : r ∈ c.Routes) (hok : c.Validate = none) :
    Config.Validate { c with Routes := c.Routes ++ [r] } = none ∧
      ¬ (((c.Routes ++ [r]).map routeKey).Nodup) := by
  rw [config_validate_none_iff] at hok
  obtain ⟨a1, a2, a3, a4, a5, a6, a7⟩ := hok
  constructor
  · rw [config_validate_none_iff]
    refine ⟨a1, a2, a3, a4, a5, ?_, ?_⟩
    · simp
    · exact validateRoutes_append_dup c.Routes r
        (validateRoutes_mem_none c.Routes 0 a7 r hmem) 0 a7
  · intro hnd
    rw [List.map_append, List.nodup_append] at hnd
    exact hnd.2.2 (List.mem_map.mpr ⟨r, hmem, rfl⟩) (by simp)

theorem c8_duplicate_route_id_not_fatal_witness :
    Config.Validate ⟨⟨["b:9092"], none⟩, ⟨["b:9092"], none⟩, "cid", "sg", "rg", 0,
        [⟨"Route.A", ["s1"], "d1", [⟨"", "ref1", [], ["f"]⟩]⟩] ++
          [⟨"Route.A", ["s1"], "d1", [⟨"", "ref1", [], ["f"]⟩]⟩],
        ⟨":8080"⟩, ⟨"", 0⟩⟩ = none ∧
      ¬ ((([(⟨"Route.A", ["s1"], "d1", [⟨"", "ref1", [], ["f"]⟩]⟩ : Route)] ++
          [(⟨"Route.A", ["s1"], "d1", [⟨"", "ref1", [], ["f"]⟩]⟩ : Route)]).map routeKey).Nodup) :=
  c8_duplicate_route_id_not_fatal
    ⟨⟨["b:9092"], none⟩, ⟨["b:9092"], none⟩, "cid", "sg", "rg", 0,
      [⟨"Route.A", ["s1"], "d1", [⟨"", "ref1", [], ["f"]⟩]⟩], ⟨":8080"⟩, ⟨"", 0⟩⟩
    ⟨"Route.A", ["s1"], "d1", [⟨"", "ref1", [], ["f"]⟩]⟩
    (List.mem_singleton.mpr rfl) (by decide)
